import Mathlib

/-!
Verification of the command-dispatch core of a TypeScript file-manager CLI.

The development shallowly embeds the relevant source modules:
* `src/utils/validation.ts` — quote-aware tokenizer (`parseCommandWithQuotes`,
  `tokenize`) and the flag parser (`parseFlags`);
* `src/cli/CommandRegistry.ts` — command/alias registry;
* `src/cli/cli.ts` — dispatch-loop error handling and Ctrl+C handling;
* `src/cli/FileManager.ts` — abortable copy/compress/decompress/move,
  modelled as explicit state transformers over a file-system state.

JavaScript `Map`s are embedded as association lists with insert-or-replace
semantics, JavaScript thrown values as an explicit error type, and the
cooperative `AbortSignal` as a value describing when the abort is observed.
-/

namespace FmCli

/-- Character constants used by the tokenizer (double quote, single quote,
backslash, space), written via code points to keep escaping explicit. -/
def dquote : Char := Char.ofNat 34

def squote : Char := Char.ofNat 39

def bslash : Char := Char.ofNat 92

def spaceChar : Char := Char.ofNat 32

/-- `{command, args}` record produced by `parseCommandWithQuotes`
(`src/types`, interface `ParsedCommand`). -/
structure ParsedCommand where
  command : String
  args : List String
  deriving Repr, DecidableEq

/-- One iteration state of the `for (let i = 0; i < input.length; i++)` loop of
`parseCommandWithQuotes` (`src/utils/validation.ts`, lines 97–155), embedded
with explicit fuel so the loop is structurally recursive.  `quoteChar` is
`none` for the JS empty-string sentinel.  Every character access of the source
(`input[i]`, `input[i-1]`, `input[i+1]`) is performed through the partial lookup `l[i]?`; a
fuel underrun yields `none`, and the refinement theorem below shows that with
the fuel used by `parseCommandWithQuotes` this never happens. -/
def parseGo (input : List Char) : Nat → Nat → String → Bool → Option Char →
    List String → Option (List String)
  | 0, i, current, _, _, result =>
    if i < input.length then
      none
    else
      some (if current.length > 0 then result ++ [current] else result)
  | fuel + 1, i, current, inQuotes, quoteChar, result =>
    if i < input.length then
      match input[i]? with
      | none => none
      | some char =>
          if (char = dquote ∨ char = squote) ∧
              (if i = 0 then none else input[i-1]?) ≠ some bslash then
            if !inQuotes then
              parseGo input fuel (i + 1) current true (some char) result
            else if some char = quoteChar then
              parseGo input fuel (i + 1) current false none result
            else
              parseGo input fuel (i + 1) (current.push char) inQuotes quoteChar result
          else if char = spaceChar ∧ !inQuotes then
            if current.length > 0 then
              parseGo input fuel (i + 1) "" inQuotes quoteChar (result ++ [current])
            else
              parseGo input fuel (i + 1) current inQuotes quoteChar result
          else if char = bslash ∧ i + 1 < input.length then
            match input[i+1]? with
            | none => none
            | some next =>
              if next = dquote ∨ next = squote ∨ next = bslash then
                parseGo input fuel (i + 2) (current.push next) inQuotes quoteChar result
              else
                parseGo input fuel (i + 1) (current.push char) inQuotes quoteChar result
          else
            parseGo input fuel (i + 1) (current.push char) inQuotes quoteChar result
    else
      some (if current.length > 0 then result ++ [current] else result)

/-- `parseCommandWithQuotes` (`src/utils/validation.ts`, lines 97–155):
run the scan from index 0 with empty accumulator; `command` is `result[0] || ""`
and `args` is `result.slice(1)`. -/
def parseCommandWithQuotes (input : String) : Option ParsedCommand :=
  (parseGo input.data input.data.length 0 "" false none []).map fun result =>
    { command := result.headD "", args := result.tail }

/-- `tokenize` (`src/utils/validation.ts`, lines 157–160):
`[parsed.command, ...parsed.args].filter((s) => s.length > 0)`. -/
def tokenize (input : String) : Option (List String) :=
  (parseCommandWithQuotes input).map fun p =>
    (p.command :: p.args).filter fun s => decide (0 < s.length)

/-- The single left-to-right scan described by §4.1 of the specification,
written structurally: an unescaped quote (previous character not a backslash)
toggles quoting, with the non-matching quote literal inside quotes; a space
outside quotes flushes a non-empty accumulator; a backslash immediately
followed by a double quote, single quote or backslash emits that character and
advances two positions; any other character is appended; the final accumulator
is flushed at end of input. -/
def specGo : Option Char → List Char → String → Bool → Option Char →
    List String → List String
  | _, [], current, _, _, result =>
    if current.length > 0 then result ++ [current] else result
  | prev, c :: rest, current, inQuotes, quoteChar, result =>
    if (c = dquote ∨ c = squote) ∧ prev ≠ some bslash then
      if !inQuotes then
        specGo (some c) rest current true (some c) result
      else if some c = quoteChar then
        specGo (some c) rest current false none result
      else
        specGo (some c) rest (current.push c) inQuotes quoteChar result
    else if c = spaceChar ∧ !inQuotes then
      if current.length > 0 then
        specGo (some c) rest "" inQuotes quoteChar (result ++ [current])
      else
        specGo (some c) rest current inQuotes quoteChar result
    else
      match rest with
      | next :: rest2 =>
        if c = bslash ∧ (next = dquote ∨ next = squote ∨ next = bslash) then
          specGo (some next) rest2 (current.push next) inQuotes quoteChar result
        else
          specGo (some c) (next :: rest2) (current.push c) inQuotes quoteChar result
      | [] =>
        if (current.push c).length > 0 then result ++ [current.push c] else result

/-- §4.1 scan packaged like `parseCommandWithQuotes`. -/
def specParseCommandWithQuotes (input : String) : ParsedCommand :=
  let result := specGo none input.data "" false none []
  { command := result.headD "", args := result.tail }

/-! ### JavaScript `Map` embedding

`Map.set` inserts or replaces in place, `Map.get` returns the value or
`undefined`, `Map.has` tests presence, `Map.delete` removes the key.  A map is
an association list; from the empty map these operations keep keys unique. -/

def jsMapSet {κ β : Type} [DecidableEq κ] : List (κ × β) → κ → β → List (κ × β)
  | [], k, v => [(k, v)]
  | (k', v') :: rest, k, v =>
    if k' = k then (k, v) :: rest else (k', v') :: jsMapSet rest k v

def jsMapGet {κ β : Type} [DecidableEq κ] : List (κ × β) → κ → Option β
  | [], _ => none
  | (k', v') :: rest, k => if k' = k then some v' else jsMapGet rest k

def jsMapErase {κ β : Type} [DecidableEq κ] : List (κ × β) → κ → List (κ × β)
  | [], _ => []
  | (k', v') :: rest, k =>
    if k' = k then jsMapErase rest k else (k', v') :: jsMapErase rest k

/-! ### Flag parser (`parseFlags`, `src/utils/validation.ts`, lines 167–203)

Command-line tokens are embedded as `List Char` (the characters of the
JavaScript string); `String.prototype.split` with a one-character separator is
embedded as `splitCh`. -/

def dash : Char := Char.ofNat 45

def eqChar : Char := Char.ofNat 61

/-- JavaScript `s.split(sep)` for a single-character separator:
`"".split` is `[""]`, separators at the ends produce empty segments. -/
def splitCh (sep : Char) : List Char → List (List Char)
  | [] => [[]]
  | c :: cs =>
    if c = sep then [] :: splitCh sep cs
    else
      match splitCh sep cs with
      | [] => [[c]]
      | h :: t => (c :: h) :: t

/-- Value stored in the flag map: a string, a boolean, or JavaScript
`undefined` (destructuring past the end of the split array). -/
inductive FlagVal where
  | str (v : List Char)
  | bool (b : Bool)
  | undef
  deriving Repr, DecidableEq

/-- The loop body of `parseFlags`.  A `--`-token with `=` is split on every
`=` and destructured as `const [key, value] = withoutPrefix.split("=")`, so
`key` is segment 0 and `value` is segment 1; with no `=` the value is `true`.
A `-x` token of length 2 consumes the following token as its value when that
token is truthy (non-empty) and does not start with `-`; otherwise its value
is `true`.  Anything else goes to `remaining` in order. -/
def parseFlagsGo : List (List Char) → List (List Char × FlagVal) → List (List Char) →
    List (List Char × FlagVal) × List (List Char)
  | [], flags, remaining => (flags, remaining)
  | arg :: rest, flags, remaining =>
    if [dash, dash].isPrefixOf arg then
      let withoutPrefix := arg.drop 2
      if withoutPrefix.contains eqChar then
        match splitCh eqChar withoutPrefix with
        | key :: value :: _ => parseFlagsGo rest (jsMapSet flags key (.str value)) remaining
        | key :: [] => parseFlagsGo rest (jsMapSet flags key .undef) remaining
        | [] => parseFlagsGo rest (jsMapSet flags [] .undef) remaining
      else
        parseFlagsGo rest (jsMapSet flags withoutPrefix (.bool true)) remaining
    else if [dash].isPrefixOf arg ∧ arg.length = 2 then
      let flagName := arg.drop 1
      match rest with
      | next :: rest2 =>
        if next ≠ [] ∧ ¬[dash].isPrefixOf next then
          parseFlagsGo rest2 (jsMapSet flags flagName (.str next)) remaining
        else
          parseFlagsGo (next :: rest2) (jsMapSet flags flagName (.bool true)) remaining
      | [] => parseFlagsGo [] (jsMapSet flags flagName (.bool true)) remaining
    else
      parseFlagsGo rest flags (remaining ++ [arg])

/-- `parseFlags(args)` (`src/utils/validation.ts`, lines 167–203). -/
def parseFlags (args : List (List Char)) : List (List Char × FlagVal) × List (List Char) :=
  parseFlagsGo args [] []

/-! ### Command registry (`src/cli/CommandRegistry.ts`)

JavaScript throws `Error` values; the registry and the handlers it stores can
fail.  The registry's own failures carry the `Unknown command` /
`Cannot create alias` messages of the source; a `DOMException` named
`AbortError` is the distinguished cancellation outcome; anything else is a
generic error. -/

inductive CliErr where
  /-- `Error` whose message marks an unresolvable command name
  (the spec's `UnknownCommand` kind). -/
  | unknownCommand (msg : String)
  /-- `DOMException("Operation aborted", "AbortError")`. -/
  | abortError (msg : String)
  /-- Any other `Error`. -/
  | otherError (msg : String)
  deriving Repr, DecidableEq

inductive CommandCategory where
  | navigation
  | fileOperations
  | search
  | osInfo
  | hash
  | compression
  | utility
  deriving Repr, DecidableEq

/-- `CommandDoc` metadata record (field `syntax` renamed `syntaxText` and
`example` renamed `exampleText` for Lean). -/
structure CommandDoc where
  description : String
  syntaxText : String
  exampleText : String
  details : String
  category : CommandCategory
  deriving Repr, DecidableEq

/-- A command handler: `(args, signal) -> outcome`.  The abort signal is
identified by an abstract token (`Option Nat`), `none` when absent. -/
def CommandHandler : Type := List String → Option Nat → Except CliErr Unit

/-- `Command` record built by `register`. -/
structure Command where
  name : String
  handler : CommandHandler
  doc : CommandDoc
  requiresConfirmation : Bool

/-- `CommandRegistry`: a commands map and an aliases map. -/
structure CommandRegistry where
  commands : List (String × Command)
  aliases : List (String × String)

def CommandRegistry.empty : CommandRegistry := ⟨[], []⟩

/-- `register` (lines 17–31): build the record and `commands.set(name, ...)`,
overwriting unconditionally. -/
def CommandRegistry.register (reg : CommandRegistry) (name : String)
    (handler : CommandHandler) (doc : CommandDoc) (requiresConfirmation : Bool) :
    CommandRegistry :=
  { reg with
    commands := jsMapSet reg.commands name ⟨name, handler, doc, requiresConfirmation⟩ }

/-- `registerAlias` (lines 33–38): throw when the target is not a registered
command (the state is then unchanged), else `aliases.set(alias, commandName)`.
The thrown error is returned alongside the (unchanged) state. -/
def CommandRegistry.registerAlias (reg : CommandRegistry) (aliasName commandName : String) :
    CommandRegistry × Option CliErr :=
  if ¬(jsMapGet reg.commands commandName).isSome then
    (reg, some (.unknownCommand
      ("Cannot create alias for non-existent command: " ++ commandName)))
  else
    ({ reg with aliases := jsMapSet reg.aliases aliasName commandName }, none)

/-- `get` (lines 40–44): resolve one alias hop, then look up the command map. -/
def CommandRegistry.get (reg : CommandRegistry) (name : String) : Option Command :=
  jsMapGet reg.commands ((jsMapGet reg.aliases name).getD name)

/-- `has` (lines 46–49). -/
def CommandRegistry.has (reg : CommandRegistry) (name : String) : Bool :=
  (jsMapGet reg.commands ((jsMapGet reg.aliases name).getD name)).isSome

/-- `execute` (lines 51–59): resolve; throw `Unknown command` when absent;
otherwise `await command.handler(args, signal)`.  The second component is the
trace of handler invocations performed by the call (name, args, signal). -/
def CommandRegistry.execute (reg : CommandRegistry) (name : String) (args : List String)
    (signal : Option Nat) : Except CliErr Unit × List (String × List String × Option Nat) :=
  match reg.get name with
  | none => (.error (.unknownCommand ("Unknown command: " ++ name)), [])
  | some command => (command.handler args signal, [(command.name, args, signal)])

/-- `requiresConfirmation` (lines 61–64): `command?.requiresConfirmation ?? false`. -/
def CommandRegistry.requiresConfirmation (reg : CommandRegistry) (name : String) : Bool :=
  match reg.get name with
  | some command => command.requiresConfirmation
  | none => false

/-- `clear` (lines 123–126): empty both maps. -/
def CommandRegistry.clear (_reg : CommandRegistry) : CommandRegistry := ⟨[], []⟩

/-- Registry mutations reachable from client code, for the reachable-state
invariant: `register`, `registerAlias` (its failure leaves the state as is),
and `clear`. -/
inductive RegOp where
  | register (name : String) (handler : CommandHandler) (doc : CommandDoc) (rc : Bool)
  | registerAlias (aliasName target : String)
  | clear

def applyOp (reg : CommandRegistry) : RegOp → CommandRegistry
  | .register n h d rc => reg.register n h d rc
  | .registerAlias a t => (reg.registerAlias a t).1
  | .clear => reg.clear

def applyOps (reg : CommandRegistry) (ops : List RegOp) : CommandRegistry :=
  ops.foldl applyOp reg

/-! ### Dispatch loop (`src/cli/cli.ts`)

The observable actions of one handler invocation of the CLI class are traced
as a list of effects; console text is identified by which `MESSAGES` template
is printed.  `handleCtrlC` (lines 480–502) and the `catch` block of
`handleInput` (lines 430–436) together with `handleError` (lines 472–478) are
embedded as pure functions over this effect vocabulary. -/

inductive Msg where
  /-- `MESSAGES.farewell(username)`, printed by `exit()`. -/
  | farewell
  /-- `MESSAGES.info.taskInterrupted`. -/
  | taskInterrupted
  /-- `MESSAGES.info.interruptHint`. -/
  | interruptHint
  /-- `` `Error: ${error.message}` `` for an `Error` instance. -/
  | errorText (message : String)
  /-- `"An unknown error occurred."` for a thrown non-`Error` value. -/
  | unknownErrorText
  deriving Repr, DecidableEq

inductive Eff where
  /-- `console.log` of a message. -/
  | print (m : Msg)
  /-- `console.error` of a message. -/
  | printErr (m : Msg)
  /-- `this.currentAbortController.abort()`. -/
  | abortSignal
  /-- `process.exit(0)`. -/
  | exitProcess
  /-- `showPrompt()` — redraw the prompt. -/
  | renderPrompt
  deriving Repr, DecidableEq

/-- The CLI fields read and written by `handleCtrlC`.
`currentAbortController` is `none` when the JS field is `null`, and
`some aborted` when a controller exists with the given abort state. -/
structure CliState where
  isExecutingCommand : Bool
  currentAbortController : Option Bool
  lastCtrlCTime : Int
  deriving Repr, DecidableEq

def DOUBLE_CTRL_C_THRESHOLD_MS : Int := 1000

/-- `handleCtrlC` (`src/cli/cli.ts`, lines 480–502).  `now` is `Date.now()`;
`exit()` prints the farewell and terminates the process. -/
def handleCtrlC (st : CliState) (now : Int) : CliState × List Eff :=
  let timeSinceLastCtrlC := now - st.lastCtrlCTime
  if timeSinceLastCtrlC < DOUBLE_CTRL_C_THRESHOLD_MS then
    (st, [.print .farewell, .exitProcess])
  else
    if st.isExecutingCommand ∧ st.currentAbortController.isSome then
      ({ st with lastCtrlCTime := now, currentAbortController := some true },
       [.abortSignal, .print .taskInterrupted])
    else
      ({ st with lastCtrlCTime := now }, [.print .interruptHint])

/-- A JavaScript thrown value as the dispatch loop's `catch` sees it:
an `Error` instance carries `.name` and `.message`; anything else is a
non-`Error` value. -/
inductive JsThrown where
  | error (name message : String)
  | nonError
  deriving Repr, DecidableEq

/-- `error instanceof Error && error.name === "AbortError"`
(`src/cli/cli.ts`, line 432). -/
def isAbortKind : JsThrown → Bool
  | .error nm _ => nm = "AbortError"
  | .nonError => false

/-- The `catch` block of `handleInput` (lines 430–436) composed with
`handleError` (lines 472–478): swallow `AbortError` silently; print
`Error: <message>` for any other `Error`; print the generic unknown-error
message for a thrown non-`Error` value.  The loop continues in every case
(no exit effect). -/
def handleInputCatch : JsThrown → List Eff
  | .error nm msg =>
    if nm = "AbortError" then [] else [.printErr (.errorText msg)]
  | .nonError => [.printErr .unknownErrorText]

/-- Does an effect list consist of exactly one `Error: <message>` print, as
§7's `every non-abort failure renders as Error: <message>` prescribes? -/
def printsAsError : List Eff → Bool
  | [Eff.printErr (Msg.errorText _)] => true
  | _ => false

/-! ### File engine (`src/cli/FileManager.ts`)

File contents are symbolic terms (`Data`): raw text, the result of a
compression/decompression stream, or a truncated prefix of a stream that was
destroyed mid-flight.  A file system is a file map plus a directory set;
`resolveFilePath` is modelled as the identity on already-resolved paths.
An `AbortSignal` passed to an operation is described by whether it is already
aborted at the initial check and by the outcome of the stream pipeline:
completion, abort observed mid-pipeline after writing a partial prefix, or an
I/O failure with the signal not aborted. -/

inductive Alg where
  | brotli
  | gzip
  | deflate
  deriving Repr, DecidableEq

inductive Data where
  | raw (s : String)
  | compressedData (alg : Alg) (d : Data)
  | decompressedData (alg : Alg) (d : Data)
  /-- first `k` bytes of the stream that would have produced `of`. -/
  | truncated (of : Data) (k : Nat)
  deriving Repr, DecidableEq

/-- `stats.size` of stored content (used only for `compressFile`'s returned
size report). -/
def dataSize : Data → Nat
  | .raw s => s.length
  | .compressedData _ d => dataSize d
  | .decompressedData _ d => dataSize d
  | .truncated _ k => k

structure FS where
  files : List (String × Data)
  dirs : List String
  deriving Repr, DecidableEq

def fileExistsFM (fs : FS) (p : String) : Bool := (jsMapGet fs.files p).isSome

def dirExistsFM (fs : FS) (p : String) : Bool := fs.dirs.contains p

/-- `createWriteStream` + completed or partial pipeline output. -/
def writeF (fs : FS) (p : String) (d : Data) : FS :=
  { fs with files := jsMapSet fs.files p d }

/-- `fs.promises.unlink` (cleanup errors are ignored by the source, so this is
total). -/
def unlinkF (fs : FS) (p : String) : FS :=
  { fs with files := jsMapErase fs.files p }

def slashChar : Char := Char.ofNat 47

/-- Scan for the segment after the last separator. -/
def basenameGo : List Char → List Char → List Char
  | acc, [] => acc
  | acc, c :: cs => if c = slashChar then basenameGo [] cs else basenameGo (acc ++ [c]) cs

/-- `path.basename` as used by `getFileName` (trailing-separator
normalisation not modelled). -/
def getFileName (p : String) : String := ⟨basenameGo [] p.data⟩

/-- `path.join` as used by `joinPaths`. -/
def joinPaths (a b : String) : String := a ++ "/" ++ b

/-- Stream-pipeline outcome for one abortable operation. -/
inductive PipeOutcome where
  /-- the pipeline ran to completion. -/
  | success
  /-- the signal aborted mid-pipeline; `k` bytes of output were written. -/
  | abortedMid (k : Nat)
  /-- the pipeline failed with an ordinary I/O error, signal not aborted. -/
  | ioFailure (msg : String) (k : Nat)
  deriving Repr, DecidableEq

/-- Behaviour of the `AbortSignal` across one operation. -/
structure SigBehavior where
  abortedAtStart : Bool
  outcome : PipeOutcome
  deriving Repr, DecidableEq

/-- `signal?.aborted` at the operation's initial check. -/
def signalAborted : Option SigBehavior → Bool
  | some sig => sig.abortedAtStart
  | none => false

inductive FmErr where
  /-- `DOMException("Operation aborted", "AbortError")`. -/
  | abortError
  /-- `MESSAGES.errors.fileNotFound(path)`. -/
  | fileNotFound (p : String)
  /-- `MESSAGES.errors.directoryNotFound(path)`. -/
  | dirNotFound (p : String)
  /-- `MESSAGES.errors.fileExists(path)`. -/
  | fileAlreadyExists (p : String)
  /-- any other I/O error. -/
  | ioError (msg : String)
  deriving Repr, DecidableEq

/-- `copyFile` (`src/cli/FileManager.ts`, lines 236–292): initial abort check,
source/destination guards, then a stream pipeline into
`destDir/basename(source)`; on an abort observed during the pipeline the
partially written destination is unlinked and `AbortError` is thrown; on a
non-abort pipeline failure the partial file is left and the error rethrown. -/
def copyFile (fs : FS) (sourcePath destDirPath : String) (signal : Option SigBehavior) :
    Except FmErr String × FS :=
  if signalAborted signal then (.error .abortError, fs)
  else if ¬fileExistsFM fs sourcePath then (.error (.fileNotFound sourcePath), fs)
  else if ¬dirExistsFM fs destDirPath then (.error (.dirNotFound destDirPath), fs)
  else
    let destPath := joinPaths destDirPath (getFileName sourcePath)
    if fileExistsFM fs destPath then (.error (.fileAlreadyExists destPath), fs)
    else
      let content := (jsMapGet fs.files sourcePath).getD (.raw "")
      match signal with
      | some sig =>
        match sig.outcome with
        | .success => (.ok destPath, writeF fs destPath content)
        | .abortedMid k =>
          (.error .abortError, unlinkF (writeF fs destPath (.truncated content k)) destPath)
        | .ioFailure msg k =>
          (.error (.ioError msg), writeF fs destPath (.truncated content k))
      | none => (.ok destPath, writeF fs destPath content)

/-- `compressFile` (lines 532–590): initial abort check, source guard (no
destination-exists guard), stat for the original size, then a
read→compress→write pipeline with the same abort cleanup as `copyFile`.
Returns `{originalSize, compressedSize}`. -/
def compressFile (fs : FS) (sourcePath destPath : String) (alg : Alg)
    (signal : Option SigBehavior) : Except FmErr (Nat × Nat) × FS :=
  if signalAborted signal then (.error .abortError, fs)
  else if ¬fileExistsFM fs sourcePath then (.error (.fileNotFound sourcePath), fs)
  else
    let content := (jsMapGet fs.files sourcePath).getD (.raw "")
    let originalSize := dataSize content
    let out := Data.compressedData alg content
    match signal with
    | some sig =>
      match sig.outcome with
      | .success => (.ok (originalSize, dataSize out), writeF fs destPath out)
      | .abortedMid k =>
        (.error .abortError, unlinkF (writeF fs destPath (.truncated out k)) destPath)
      | .ioFailure msg k =>
        (.error (.ioError msg), writeF fs destPath (.truncated out k))
    | none => (.ok (originalSize, dataSize out), writeF fs destPath out)

/-- `decompressFile` (lines 592–642): same shape as `compressFile` without the
size report. -/
def decompressFile (fs : FS) (sourcePath destPath : String) (alg : Alg)
    (signal : Option SigBehavior) : Except FmErr Unit × FS :=
  if signalAborted signal then (.error .abortError, fs)
  else if ¬fileExistsFM fs sourcePath then (.error (.fileNotFound sourcePath), fs)
  else
    let content := (jsMapGet fs.files sourcePath).getD (.raw "")
    let out := Data.decompressedData alg content
    match signal with
    | some sig =>
      match sig.outcome with
      | .success => (.ok (), writeF fs destPath out)
      | .abortedMid k =>
        (.error .abortError, unlinkF (writeF fs destPath (.truncated out k)) destPath)
      | .ioFailure msg k =>
        (.error (.ioError msg), writeF fs destPath (.truncated out k))
    | none => (.ok (), writeF fs destPath out)

/-- `deleteFile` (lines 301–310): guard, then `unlink`. -/
def deleteFile (fs : FS) (filePath : String) : Except FmErr Unit × FS :=
  if ¬fileExistsFM fs filePath then (.error (.fileNotFound filePath), fs)
  else (.ok (), unlinkF fs filePath)

/-- `moveFile` (lines 294–299): `copy + delete original`; the delete runs only
after `copyFile` resolved successfully. -/
def moveFile (fs : FS) (sourcePath destDirPath : String) (signal : Option SigBehavior) :
    Except FmErr String × FS :=
  match copyFile fs sourcePath destDirPath signal with
  | (.ok destPath, fs1) =>
    match deleteFile fs1 sourcePath with
    | (.ok _, fs2) => (.ok destPath, fs2)
    | (.error e, fs2) => (.error e, fs2)
  | (.error e, fs1) => (.error e, fs1)

/-! ### Auxiliary definitions for invariants and concrete scenarios -/

/-- Every stored command's `name` field equals its key (true of every registry
built by `register`, which sets `name` from the key). -/
def NameCoherent (reg : CommandRegistry) : Prop :=
  ∀ k cmd, jsMapGet reg.commands k = some cmd → cmd.name = k

/-- Every alias entry targets a registered command name. -/
def AliasInv (reg : CommandRegistry) : Prop :=
  ∀ a t, jsMapGet reg.aliases a = some t → (jsMapGet reg.commands t).isSome = true

def trivialHandler : CommandHandler := fun _ _ => .ok ()

def sampleDoc : CommandDoc :=
  { description := "test command", syntaxText := "test", exampleText := "test",
    details := "", category := .utility }

def sampleRegistry : CommandRegistry :=
  CommandRegistry.empty.register "test" trivialHandler sampleDoc false

def sampleCommand : Command :=
  { name := "test", handler := trivialHandler, doc := sampleDoc, requiresConfirmation := false }

def stExecuting : CliState :=
  { isExecutingCommand := true, currentAbortController := some false, lastCtrlCTime := 0 }

def stIdle : CliState :=
  { isExecutingCommand := false, currentAbortController := none, lastCtrlCTime := 4600 }

def fsSample : FS :=
  { files := [("/home/src.txt", .raw "abc")], dirs := ["/home/dest"] }

/-! ## Association-list map lemmas -/

theorem jsMapGet_set_self {κ β : Type} [DecidableEq κ] (m : List (κ × β)) (k : κ) (v : β) :
    jsMapGet (jsMapSet m k v) k = some v := by
  induction m with
  | nil => simp [jsMapSet, jsMapGet]
  | cons hd tl ih =>
      obtain ⟨k', v'⟩ := hd
      by_cases h : k' = k
      · simp [jsMapSet, h, jsMapGet]
      · simp [jsMapSet, h, jsMapGet, ih]

theorem jsMapGet_set_ne {κ β : Type} [DecidableEq κ] (m : List (κ × β)) (k k' : κ) (v : β)
    (h : k' ≠ k) : jsMapGet (jsMapSet m k v) k' = jsMapGet m k' := by
  have hnk : ¬k = k' := fun he => h he.symm
  induction m with
  | nil => simp [jsMapSet, jsMapGet, hnk]
  | cons hd tl ih =>
      obtain ⟨a, b⟩ := hd
      by_cases hk : a = k
      · subst hk
        simp [jsMapSet, jsMapGet, hnk]
      · simp only [jsMapSet, if_neg hk, jsMapGet]
        by_cases hk' : a = k'
        · simp [hk']
        · simp [hk', ih]

theorem jsMapGet_erase_self {κ β : Type} [DecidableEq κ] (m : List (κ × β)) (k : κ) :
    jsMapGet (jsMapErase m k) k = none := by
  induction m with
  | nil => simp [jsMapErase, jsMapGet]
  | cons hd tl ih =>
      obtain ⟨a, b⟩ := hd
      by_cases h : a = k
      · simpa [jsMapErase, h] using ih
      · simp [jsMapErase, h, jsMapGet, ih]

theorem jsMapGet_erase_ne {κ β : Type} [DecidableEq κ] (m : List (κ × β)) (k k' : κ)
    (h : k' ≠ k) : jsMapGet (jsMapErase m k) k' = jsMapGet m k' := by
  induction m with
  | nil => simp [jsMapErase, jsMapGet]
  | cons hd tl ih =>
      obtain ⟨a, b⟩ := hd
      by_cases hk : a = k
      · subst hk
        simp [jsMapErase, jsMapGet, Ne.symm h, ih]
      · by_cases hk' : a = k'
        · subst hk'
          simp [jsMapErase, hk, jsMapGet, h, ih]
        · simp [jsMapErase, hk, hk', jsMapGet, ih]

theorem jsMapGet_set_isSome_mono {κ β : Type} [DecidableEq κ] (m : List (κ × β))
    (k t : κ) (v : β) (h : (jsMapGet m t).isSome = true) :
    (jsMapGet (jsMapSet m k v) t).isSome = true := by
  by_cases ht : t = k
  · subst ht
    simp [jsMapGet_set_self]
  · rwa [jsMapGet_set_ne m k t v ht]

/-! ## Tokenizer: the fuel-indexed loop refines the §4.1 scan -/

theorem specGo_nil (prev : Option Char) (cur : String) (iq : Bool) (qc : Option Char)
    (res : List String) :
    specGo prev [] cur iq qc res = if cur.length > 0 then res ++ [cur] else res := rfl

theorem specGo_cons (prev : Option Char) (c : Char) (rest : List Char) (cur : String)
    (iq : Bool) (qc : Option Char) (res : List String) :
    specGo prev (c :: rest) cur iq qc res =
      if (c = dquote ∨ c = squote) ∧ prev ≠ some bslash then
        if !iq then
          specGo (some c) rest cur true (some c) res
        else if some c = qc then
          specGo (some c) rest cur false none res
        else
          specGo (some c) rest (cur.push c) iq qc res
      else if c = spaceChar ∧ !iq then
        if cur.length > 0 then
          specGo (some c) rest "" iq qc (res ++ [cur])
        else
          specGo (some c) rest cur iq qc res
      else
        match rest with
        | next :: rest2 =>
          if c = bslash ∧ (next = dquote ∨ next = squote ∨ next = bslash) then
            specGo (some next) rest2 (cur.push next) iq qc res
          else
            specGo (some c) (next :: rest2) (cur.push c) iq qc res
        | [] =>
          if (cur.push c).length > 0 then res ++ [cur.push c] else res := by
  cases rest <;> rfl

theorem parseGo_eq_specGo (input : List Char) :
    ∀ (fuel i : Nat) (cur : String) (iq : Bool) (qc : Option Char) (res : List String),
      input.length - i ≤ fuel →
      parseGo input fuel i cur iq qc res =
        some (specGo (if i = 0 then none else input[i-1]?) (input.drop i) cur iq qc res) := by
  intro fuel
  induction fuel with
  | zero =>
      intro i cur iq qc res hfuel
      have hle : input.length ≤ i := by omega
      rw [parseGo, if_neg (by omega), List.drop_eq_nil_of_le hle, specGo]
  | succ fuel ih =>
      intro i cur iq qc res hfuel
      by_cases h : i < input.length
      · have hget : input[i]? = some input[i] := List.getElem?_eq_getElem h
        have hdrop : input.drop i = input[i] :: input.drop (i + 1) :=
          List.drop_eq_getElem_cons h
        set c := input[i] with hcdef
        have hprev1 : (if i + 1 = 0 then none else input[i + 1 - 1]?) = some c := by
          simp [hget]
        rw [parseGo, if_pos h, hget, hdrop]
        dsimp only
        rw [specGo_cons]
        by_cases hQ : (c = dquote ∨ c = squote) ∧
            (if i = 0 then none else input[i-1]?) ≠ some bslash
        · rw [if_pos hQ, if_pos hQ]
          cases iq with
          | false =>
              simp only [Bool.not_false]
              rw [if_pos trivial, if_pos trivial, ih _ _ _ _ _ (by omega), hprev1]
          | true =>
              simp only [Bool.not_true]
              rw [if_neg Bool.false_ne_true, if_neg Bool.false_ne_true]
              by_cases hq : some c = qc
              · rw [if_pos hq, if_pos hq, ih _ _ _ _ _ (by omega), hprev1]
              · rw [if_neg hq, if_neg hq, ih _ _ _ _ _ (by omega), hprev1]
        · rw [if_neg hQ, if_neg hQ]
          by_cases hS : c = spaceChar ∧ (!iq) = true
          · rw [if_pos hS, if_pos hS]
            by_cases hc0 : cur.length > 0
            · rw [if_pos hc0, if_pos hc0, ih _ _ _ _ _ (by omega), hprev1]
            · rw [if_neg hc0, if_neg hc0, ih _ _ _ _ _ (by omega), hprev1]
          · rw [if_neg hS, if_neg hS]
            by_cases h2 : i + 1 < input.length
            · have hget2 : input[i+1]? = some input[i+1] := List.getElem?_eq_getElem h2
              have hdrop2 : List.drop (i+1) input = input[i+1] :: List.drop (i+2) input :=
                List.drop_eq_getElem_cons h2
              set next := input[i+1] with hnextdef
              have hprev2 : (if i + 2 = 0 then none else input[i + 2 - 1]?) = some next := by
                simp [hget2]
              rw [hdrop2]
              dsimp only
              by_cases hcb : c = bslash
              · rw [if_pos ⟨hcb, h2⟩, hget2]
                dsimp only
                by_cases hesc : next = dquote ∨ next = squote ∨ next = bslash
                · rw [if_pos hesc, if_pos ⟨hcb, hesc⟩, ih _ _ _ _ _ (by omega), hprev2]
                · rw [if_neg hesc, if_neg (fun hand => hesc hand.2)]
                  rw [← hdrop2, ih _ _ _ _ _ (by omega), hprev1]
              · rw [if_neg (fun hand => hcb hand.1), if_neg (fun hand => hcb hand.1)]
                rw [← hdrop2, ih _ _ _ _ _ (by omega), hprev1]
            · have hdropnil : List.drop (i+1) input = [] := List.drop_eq_nil_of_le (by omega)
              rw [if_neg (fun hand => h2 hand.2), ih _ _ _ _ _ (by omega), hprev1, hdropnil,
                specGo_nil]
      · rw [parseGo, if_neg h, List.drop_eq_nil_of_le (by omega), specGo]

theorem parseCommandWithQuotes_eq_spec (s : String) :
    parseCommandWithQuotes s = some (specParseCommandWithQuotes s) := by
  unfold parseCommandWithQuotes specParseCommandWithQuotes
  rw [parseGo_eq_specGo s.data s.data.length 0 "" false none [] (by omega)]
  simp

/-- C2: `parseCommandWithQuotes` performs the single left-to-right scan of
§4.1 — unescaped quotes toggle quoting with the opening character as
delimiter, the other quote style is literal inside quotes, a space outside
quotes flushes a non-empty accumulator, a backslash before a quote or
backslash emits the escaped character and consumes two positions (a quote
preceded by a backslash never toggles quoting), an unterminated quote absorbs
the rest of the input, and the first token is the command — and in particular
`cat "my file.txt"` parses to command `cat` with one argument `my file.txt`,
and `echo \"hello\"` parses to command `echo` with argument `"hello"`. -/
theorem parseCommandWithQuotes_implements_spec_scan :
    (∀ s : String, parseCommandWithQuotes s = some (specParseCommandWithQuotes s)) ∧
    parseCommandWithQuotes "cat \"my file.txt\"" =
      some { command := "cat", args := ["my file.txt"] } ∧
    parseCommandWithQuotes "echo \\\"hello\\\"" =
      some { command := "echo", args := ["\"hello\""] } :=
  ⟨parseCommandWithQuotes_eq_spec, by decide, by decide⟩

/-- C9: for every input string the tokenizer is total — the embedded loop,
whose character accesses and fuel would surface any out-of-bounds read or
non-termination as `none`, always returns a result for both
`parseCommandWithQuotes` and `tokenize` — and every token produced by
`tokenize` is non-empty. -/
theorem tokenizer_total_and_no_empty_tokens (s : String) :
    (parseCommandWithQuotes s).isSome = true ∧ (tokenize s).isSome = true ∧
      ((tokenize s).getD []).all (fun t => decide (0 < t.length)) = true := by
  have hp := parseCommandWithQuotes_eq_spec s
  refine ⟨by simp [hp], by simp [tokenize, hp], ?_⟩
  rw [tokenize, hp]
  simp only [Option.map_some, Option.getD_some, List.all_eq_true]
  intro t ht
  exact (List.mem_filter.mp ht).2


/-! ## Registry theorems -/

/-- C4: `execute` fails with the `UnknownCommand` kind and performs no handler
invocation exactly when the name resolves to no registered command; otherwise
it invokes the resolved command's handler exactly once with exactly
`(args, signal)` and returns the handler's outcome unmodified. -/
theorem execute_unknown_iff_unresolved_and_propagates (reg : CommandRegistry)
    (name : String) (args : List String) (signal : Option Nat) :
    (reg.get name = none →
       reg.execute name args signal =
         (.error (.unknownCommand ("Unknown command: " ++ name)), [])) ∧
    (∀ cmd, reg.get name = some cmd →
       reg.execute name args signal = (cmd.handler args signal, [(cmd.name, args, signal)])) ∧
    (((reg.execute name args signal).2 = [] ∧
        ∃ msg, (reg.execute name args signal).1 = .error (.unknownCommand msg)) ↔
      reg.get name = none) := by
  cases hg : reg.get name with
  | none =>
      refine ⟨fun _ => by simp [CommandRegistry.execute, hg], ?_, ?_⟩
      · intro cmd hc
        simp [hg] at hc
      · simp [CommandRegistry.execute, hg]
  | some cmd0 =>
      refine ⟨fun h => by simp [hg] at h, ?_, ?_⟩
      · intro cmd hc
        cases hc
        simp [CommandRegistry.execute, hg]
      · simp [CommandRegistry.execute, hg]

/-- C5: `registerAlias` fails (with the `UnknownCommand` kind) exactly when
the target is not a registered command name, leaving both maps unchanged in
that case; on success `has alias` holds and `get alias` returns the command
stored under `targetName` (whose `name` field is `targetName` in any
name-coherent registry), silently overwriting any previous binding of
`alias`. -/
theorem registerAlias_failure_iff_unknown_target (reg : CommandRegistry)
    (aliasName target : String) :
    (∀ e, (reg.registerAlias aliasName target).2 = some e → ∃ msg, e = .unknownCommand msg) ∧
    ((reg.registerAlias aliasName target).2.isSome = true ↔
      (jsMapGet reg.commands target).isSome = false) ∧
    ((jsMapGet reg.commands target).isSome = false →
       (reg.registerAlias aliasName target).1 = reg) ∧
    ((jsMapGet reg.commands target).isSome = true →
       (reg.registerAlias aliasName target).1.has aliasName = true ∧
       (NameCoherent reg →
          ∃ cmd, (reg.registerAlias aliasName target).1.get aliasName = some cmd ∧
            cmd.name = target)) := by
  cases ht : (jsMapGet reg.commands target).isSome with
  | false =>
      refine ⟨?_, by simp [CommandRegistry.registerAlias, ht], ?_, by simp⟩
      · intro e he
        simp [CommandRegistry.registerAlias, ht] at he
        exact ⟨_, he.symm⟩
      · intro _
        simp [CommandRegistry.registerAlias, ht]
  | true =>
      refine ⟨?_, by simp [CommandRegistry.registerAlias, ht], by simp, fun _ => ⟨?_, ?_⟩⟩
      · intro e he
        simp [CommandRegistry.registerAlias, ht] at he
      · simp [CommandRegistry.registerAlias, ht, CommandRegistry.has, jsMapGet_set_self]
      · intro hcoh
        obtain ⟨cmd, hcmd⟩ := Option.isSome_iff_exists.mp ht
        refine ⟨cmd, ?_, hcoh target cmd hcmd⟩
        simp [CommandRegistry.registerAlias, ht, CommandRegistry.get, jsMapGet_set_self, hcmd]



/-! ## C8: reachable-registry alias invariant -/

theorem aliasInv_applyOp (reg : CommandRegistry) (op : RegOp) (h : AliasInv reg) :
    AliasInv (applyOp reg op) := by
  cases op with
  | register n hd d rc =>
      intro a t ht
      exact jsMapGet_set_isSome_mono _ _ _ _ (h a t ht)
  | registerAlias al tg =>
      intro a t ht
      cases hg : (jsMapGet reg.commands tg).isSome with
      | false =>
          simp only [applyOp, CommandRegistry.registerAlias] at ht ⊢
          simp [hg] at ht ⊢
          exact h a t ht
      | true =>
          simp only [applyOp, CommandRegistry.registerAlias] at ht ⊢
          simp [hg] at ht ⊢
          by_cases ha : a = al
          · subst ha
            rw [jsMapGet_set_self] at ht
            cases ht
            exact hg
          · rw [jsMapGet_set_ne _ _ _ _ ha] at ht
            exact h a t ht
  | clear =>
      intro a t ht
      simp [applyOp, CommandRegistry.clear, jsMapGet] at ht

theorem aliasInv_applyOps (ops : List RegOp) :
    ∀ reg : CommandRegistry, AliasInv reg → AliasInv (applyOps reg ops) := by
  induction ops with
  | nil => exact fun reg h => h
  | cons op rest ih =>
      intro reg h
      exact ih (applyOp reg op) (aliasInv_applyOp reg op h)

/-- C8: in every registry state reachable from the empty registry by
`register`, `registerAlias` (successful or failing) and `clear`, every alias
entry targets a name present in the command map; and `clear` empties both maps
together. -/
theorem alias_targets_always_registered (ops : List RegOp) :
    (∀ a t, jsMapGet (applyOps CommandRegistry.empty ops).aliases a = some t →
       (jsMapGet (applyOps CommandRegistry.empty ops).commands t).isSome = true) ∧
    (∀ reg : CommandRegistry, applyOp reg .clear = CommandRegistry.empty) :=
  ⟨aliasInv_applyOps ops CommandRegistry.empty (fun a t ht => by
      simp [CommandRegistry.empty, jsMapGet] at ht),
   fun _ => rfl⟩

theorem alias_targets_always_registered_witness :
    jsMapGet (applyOps CommandRegistry.empty
        [.register "test" trivialHandler sampleDoc false,
         .registerAlias "t" "test"]).aliases "t" = some "test" ∧
    (jsMapGet (applyOps CommandRegistry.empty
        [.register "test" trivialHandler sampleDoc false,
         .registerAlias "t" "test"]).commands "test").isSome = true :=
  ⟨by decide, (alias_targets_always_registered
      [.register "test" trivialHandler sampleDoc false,
       .registerAlias "t" "test"]).1 "t" "test" (by decide)⟩

theorem sampleRegistry_coherent : NameCoherent sampleRegistry := by
  intro k cmd hk
  simp only [sampleRegistry, CommandRegistry.register, CommandRegistry.empty,
    jsMapSet, jsMapGet] at hk
  by_cases hk2 : ("test" : String) = k
  · rw [if_pos hk2] at hk
    cases hk
    exact hk2
  · rw [if_neg hk2] at hk
    cases hk

theorem execute_unknown_iff_unresolved_and_propagates_witness :
    sampleRegistry.get "test" = some sampleCommand ∧
    sampleRegistry.execute "test" ["a"] (some 0) =
      (trivialHandler ["a"] (some 0), [("test", ["a"], some 0)]) := by
  have hget : sampleRegistry.get "test" = some sampleCommand := by
    simp [sampleRegistry, sampleCommand, CommandRegistry.get, CommandRegistry.register,
      CommandRegistry.empty, jsMapSet, jsMapGet]
  exact ⟨hget,
    (execute_unknown_iff_unresolved_and_propagates sampleRegistry "test" ["a"] (some 0)).2.1
      sampleCommand hget⟩

theorem registerAlias_failure_iff_unknown_target_witness :
    (sampleRegistry.registerAlias "t" "test").1.has "t" = true ∧
    (∃ cmd, (sampleRegistry.registerAlias "t" "test").1.get "t" = some cmd ∧
      cmd.name = "test") := by
  have ht : (jsMapGet sampleRegistry.commands "test").isSome = true := by
    simp [sampleRegistry, CommandRegistry.register, CommandRegistry.empty, jsMapSet, jsMapGet]
  have h := registerAlias_failure_iff_unknown_target sampleRegistry "t" "test"
  exact ⟨(h.2.2.2 ht).1, (h.2.2.2 ht).2 sampleRegistry_coherent⟩

/-! ## Dispatch-loop theorems -/

/-- C3: a second interrupt within the threshold window exits with a farewell
regardless of the loop's state; otherwise, when a command is executing (a
current abort controller exists) the controller is aborted and the
interruption notice printed, and when no command is executing only the
double-interrupt hint is printed — no prompt redraw, no exit. -/
theorem handleCtrlC_double_interrupt_spec (st : CliState) (now : Int) :
    (now - st.lastCtrlCTime < DOUBLE_CTRL_C_THRESHOLD_MS →
       handleCtrlC st now = (st, [.print .farewell, .exitProcess])) ∧
    (DOUBLE_CTRL_C_THRESHOLD_MS ≤ now - st.lastCtrlCTime →
       (st.isExecutingCommand = true → st.currentAbortController.isSome = true →
          handleCtrlC st now =
            ({ st with lastCtrlCTime := now, currentAbortController := some true },
             [.abortSignal, .print .taskInterrupted])) ∧
       (st.isExecutingCommand = false →
          handleCtrlC st now = ({ st with lastCtrlCTime := now }, [.print .interruptHint]) ∧
          Eff.renderPrompt ∉ (handleCtrlC st now).2 ∧
          Eff.exitProcess ∉ (handleCtrlC st now).2)) := by
  by_cases hlt : now - st.lastCtrlCTime < DOUBLE_CTRL_C_THRESHOLD_MS
  · refine ⟨fun _ => by simp [handleCtrlC, hlt], fun hge => absurd hlt (by omega)⟩
  · refine ⟨fun h => absurd h hlt, fun _ => ⟨?_, ?_⟩⟩
    · intro hexec hctrl
      simp [handleCtrlC, hlt, hexec, hctrl]
    · intro hexec
      refine ⟨by simp [handleCtrlC, hlt, hexec], ?_, ?_⟩ <;>
        simp [handleCtrlC, hlt, hexec]

theorem handleCtrlC_double_interrupt_spec_witness :
    handleCtrlC stExecuting 5000 =
      ({ isExecutingCommand := true, currentAbortController := some true,
         lastCtrlCTime := 5000 }, [.abortSignal, .print .taskInterrupted]) ∧
    handleCtrlC stIdle 5000 =
      ({ isExecutingCommand := false, currentAbortController := none,
         lastCtrlCTime := 4600 }, [.print .farewell, .exitProcess]) :=
  ⟨((handleCtrlC_double_interrupt_spec stExecuting 5000).2 (by decide)).1 rfl rfl,
   (handleCtrlC_double_interrupt_spec stIdle 5000).1 (by decide)⟩

/-- C7 counterexample: a thrown non-`Error` value is a failure that is neither
of the `AbortError` kind nor printed as `Error: <message>` — the dispatch
loop's catch prints the generic unknown-error line instead. -/
theorem nonError_throw_not_printed_as_error :
    isAbortKind JsThrown.nonError = false ∧
    handleInputCatch JsThrown.nonError = [.printErr .unknownErrorText] ∧
    printsAsError (handleInputCatch JsThrown.nonError) = false := by decide

/-- C7 (amended): an `AbortError`-kind failure is swallowed silently; every
other thrown `Error` is printed as `Error: <message>`; a thrown non-`Error`
value is printed as the generic unknown-error message; in every case the loop
continues (no exit effect). -/
theorem handleInputCatch_abort_swallowed_spec (e : JsThrown) :
    (isAbortKind e = true → handleInputCatch e = []) ∧
    (∀ nm msg, e = .error nm msg → nm ≠ "AbortError" →
       handleInputCatch e = [.printErr (.errorText msg)]) ∧
    (e = .nonError → handleInputCatch e = [.printErr .unknownErrorText]) ∧
    Eff.exitProcess ∉ handleInputCatch e := by
  cases e with
  | error nm msg =>
      refine ⟨?_, ?_, by simp, ?_⟩
      · intro h
        simp [isAbortKind] at h
        simp [handleInputCatch, h]
      · intro nm2 msg2 he hne
        cases he
        simp [handleInputCatch, hne]
      · by_cases h : nm = "AbortError" <;> simp [handleInputCatch, h]
  | nonError =>
      refine ⟨by simp [isAbortKind], by simp, fun _ => rfl, by simp [handleInputCatch]⟩

theorem handleInputCatch_abort_swallowed_spec_witness :
    handleInputCatch (JsThrown.error "Error" "boom") = [.printErr (.errorText "boom")] ∧
    handleInputCatch (JsThrown.error "AbortError" "Operation aborted") = [] :=
  ⟨(handleInputCatch_abort_swallowed_spec (JsThrown.error "Error" "boom")).2.1
      "Error" "boom" rfl (by decide),
   (handleInputCatch_abort_swallowed_spec
      (JsThrown.error "AbortError" "Operation aborted")).1 (by decide)⟩



/-! ## Flag-parser theorems -/

theorem splitCh_no_sep (sep : Char) (v : List Char) (hv : sep ∉ v) :
    splitCh sep v = [v] := by
  induction v with
  | nil => rfl
  | cons c cs ih =>
      have hc : ¬c = sep := fun he => hv (by simp [he])
      have hcs : sep ∉ cs := fun hm => hv (List.mem_cons_of_mem _ hm)
      rw [splitCh, if_neg hc, ih hcs]

theorem splitCh_append (sep : Char) (k rest : List Char) (hk : sep ∉ k) :
    splitCh sep (k ++ sep :: rest) = k :: splitCh sep rest := by
  induction k with
  | nil => simp [splitCh]
  | cons c cs ih =>
      have hc : ¬c = sep := fun he => hk (by simp [he])
      have hcs : sep ∉ cs := fun hm => hk (List.mem_cons_of_mem _ hm)
      rw [List.cons_append, splitCh, if_neg hc, ih hcs]

/-- C6 counterexample: on `--key=value=with=equals` the implementation maps
`key` to the second `=`-split segment `value`, not to the whole suffix
`value=with=equals` that split-on-first would give. -/
theorem parseFlags_splits_on_all_counterexample :
    (parseFlags [("--key=value=with=equals").data]).1 =
      [(("key").data, FlagVal.str ("value").data)] ∧
    (parseFlags [("--key=value=with=equals").data]).2 = [] ∧
    FlagVal.str ("value").data ≠ FlagVal.str ("value=with=equals").data := by decide

/-- C6 (amended): a long flag `--k=v…` is split on every `=`; the flag's value
is the segment strictly between the first and the second `=` (the whole
remainder only when it contains no further `=`); a long flag with no `=` maps
to boolean `true`. -/
theorem parseFlags_long_flag_value_is_second_segment
    (k v tail : List Char) (hk : eqChar ∉ k) (hv : eqChar ∉ v)
    (htail : tail = [] ∨ ∃ t2, tail = eqChar :: t2) :
    parseFlags [[dash, dash] ++ (k ++ eqChar :: (v ++ tail))] = ([(k, .str v)], []) ∧
    parseFlags [[dash, dash] ++ k] = ([(k, .bool true)], []) := by
  constructor
  · have hpre : [dash, dash].isPrefixOf ([dash, dash] ++ (k ++ eqChar :: (v ++ tail))) = true := by
      simp [List.isPrefixOf]
    have hdrop : ([dash, dash] ++ (k ++ eqChar :: (v ++ tail))).drop 2 =
        k ++ eqChar :: (v ++ tail) := rfl
    have hcont : (k ++ eqChar :: (v ++ tail)).contains eqChar = true := by
      simp
    have hsplit : splitCh eqChar (k ++ eqChar :: (v ++ tail)) =
        k :: splitCh eqChar (v ++ tail) := splitCh_append eqChar k _ hk
    have hsplit2 : ∃ t3, splitCh eqChar (v ++ tail) = v :: t3 := by
      rcases htail with h0 | ⟨t2, ht2⟩
      · subst h0
        rw [List.append_nil, splitCh_no_sep eqChar v hv]
        exact ⟨[], rfl⟩
      · subst ht2
        rw [splitCh_append eqChar v t2 hv]
        exact ⟨splitCh eqChar t2, rfl⟩
    obtain ⟨t3, ht3⟩ := hsplit2
    rw [parseFlags, parseFlagsGo, if_pos hpre]
    simp only [hdrop, hcont, if_pos, hsplit, ht3]
    rw [parseFlagsGo]
    rfl
  · have hpre : [dash, dash].isPrefixOf ([dash, dash] ++ k) = true := by
      simp [List.isPrefixOf]
    have hdrop : ([dash, dash] ++ k).drop 2 = k := rfl
    have hcont : k.contains eqChar = false := by
      simp only [List.contains, List.elem_eq_mem, decide_eq_false_iff_not]
      exact hk
    rw [parseFlags, parseFlagsGo, if_pos hpre]
    simp only [hdrop, hcont]
    rw [if_neg (by simp), parseFlagsGo]
    rfl

theorem parseFlags_long_flag_value_is_second_segment_witness :
    parseFlags [("--key=value=with=equals").data] =
      ([(("key").data, FlagVal.str ("value").data)], []) ∧
    parseFlags [("--verbose").data] = ([(("verbose").data, FlagVal.bool true)], []) := by
  have h1 := (parseFlags_long_flag_value_is_second_segment
      ("key").data ("value").data ("=with=equals").data
      (by decide) (by decide) (Or.inr ⟨("with=equals").data, by decide⟩)).1
  have h2 := (parseFlags_long_flag_value_is_second_segment
      ("verbose").data [] [] (by decide) (by decide) (Or.inl rfl)).2
  constructor
  · have : ("--key=value=with=equals").data =
        [dash, dash] ++ (("key").data ++ eqChar :: (("value").data ++ ("=with=equals").data)) := by
      decide
    rw [this]
    exact h1
  · have : ("--verbose").data = [dash, dash] ++ ("verbose").data := by decide
    rw [this]
    exact h2



/-! ## File-engine theorems -/

/-- C1: for `copyFile`, `compressFile` and `decompressFile`, a signal already
aborted at the initial check makes the operation fail with the `AbortError`
kind and leaves the file system untouched; a signal aborted mid-pipeline (once
the operation's guards passed) makes it fail with the `AbortError` kind with
the partially written destination file deleted — no destination file is left
behind. -/
theorem aborted_signal_cleanup_copy_compress_decompress (fs : FS) (sp dd dp : String)
    (alg : Alg) (sig : SigBehavior) :
    (sig.abortedAtStart = true →
       copyFile fs sp dd (some sig) = (.error .abortError, fs) ∧
       compressFile fs sp dp alg (some sig) = (.error .abortError, fs) ∧
       decompressFile fs sp dp alg (some sig) = (.error .abortError, fs)) ∧
    (sig.abortedAtStart = false →
       ∀ k, sig.outcome = .abortedMid k →
         (fileExistsFM fs sp = true → dirExistsFM fs dd = true →
            fileExistsFM fs (joinPaths dd (getFileName sp)) = false →
            (copyFile fs sp dd (some sig)).1 = .error .abortError ∧
            fileExistsFM (copyFile fs sp dd (some sig)).2
              (joinPaths dd (getFileName sp)) = false) ∧
         (fileExistsFM fs sp = true →
            (compressFile fs sp dp alg (some sig)).1 = .error .abortError ∧
            fileExistsFM (compressFile fs sp dp alg (some sig)).2 dp = false) ∧
         (fileExistsFM fs sp = true →
            (decompressFile fs sp dp alg (some sig)).1 = .error .abortError ∧
            fileExistsFM (decompressFile fs sp dp alg (some sig)).2 dp = false)) := by
  constructor
  · intro hab
    refine ⟨?_, ?_, ?_⟩ <;> simp [copyFile, compressFile, decompressFile, signalAborted, hab]
  · intro hab k hout
    refine ⟨?_, ?_, ?_⟩
    · intro hsrc hdir hdest
      simp only [copyFile, signalAborted, hab, Bool.false_eq_true, if_false, hsrc,
        hdir, hdest, hout, not_true, Bool.not_true]
      refine ⟨trivial, ?_⟩
      simp [fileExistsFM, unlinkF, jsMapGet_erase_self]
    · intro hsrc
      simp only [compressFile, signalAborted, hab, Bool.false_eq_true, if_false, hsrc,
        hout, not_true, Bool.not_true]
      refine ⟨trivial, ?_⟩
      simp [fileExistsFM, unlinkF, jsMapGet_erase_self]
    · intro hsrc
      simp only [decompressFile, signalAborted, hab, Bool.false_eq_true, if_false, hsrc,
        hout, not_true, Bool.not_true]
      refine ⟨trivial, ?_⟩
      simp [fileExistsFM, unlinkF, jsMapGet_erase_self]



theorem aborted_signal_cleanup_copy_compress_decompress_witness :
    copyFile fsSample "/home/src.txt" "/home/dest" (some ⟨true, .success⟩) =
      (.error .abortError, fsSample) ∧
    (copyFile fsSample "/home/src.txt" "/home/dest" (some ⟨false, .abortedMid 1⟩)).1 =
      .error .abortError ∧
    fileExistsFM (copyFile fsSample "/home/src.txt" "/home/dest"
        (some ⟨false, .abortedMid 1⟩)).2 "/home/dest/src.txt" = false ∧
    fileExistsFM (compressFile fsSample "/home/src.txt" "/home/out.br" .brotli
        (some ⟨false, .abortedMid 1⟩)).2 "/home/out.br" = false := by
  have h1 := (aborted_signal_cleanup_copy_compress_decompress fsSample
      "/home/src.txt" "/home/dest" "/home/out.br" .brotli ⟨true, .success⟩).1 rfl
  have h2 := (aborted_signal_cleanup_copy_compress_decompress fsSample
      "/home/src.txt" "/home/dest" "/home/out.br" .brotli ⟨false, .abortedMid 1⟩).2 rfl 1 rfl
  have hdest : joinPaths "/home/dest" (getFileName "/home/src.txt") = "/home/dest/src.txt" := by
    decide
  have hc := h2.1 (by decide) (by decide) (by rw [hdest]; decide)
  exact ⟨h1.1, hc.1, by rw [← hdest]; exact hc.2, (h2.2.1 (by decide)).2⟩



/-- C10: `moveFile` is copy-then-delete.  A failing copy (in particular an
abort before or during the copy phase) is propagated unchanged with no delete
performed; under a mid-copy abort the outcome is the `AbortError` kind, the
partial destination file is removed and the source file is untouched; when the
copy completes, the source is deleted afterwards and the destination holds the
source's content. -/
theorem moveFile_copy_then_delete (fs : FS) (sp dd : String) (sig : Option SigBehavior) :
    (∀ e fs1, copyFile fs sp dd sig = (.error e, fs1) →
       moveFile fs sp dd sig = (.error e, fs1)) ∧
    (signalAborted sig = true → moveFile fs sp dd sig = (.error .abortError, fs)) ∧
    (∀ s, sig = some s → s.abortedAtStart = false → ∀ k, s.outcome = .abortedMid k →
       fileExistsFM fs sp = true → dirExistsFM fs dd = true →
       fileExistsFM fs (joinPaths dd (getFileName sp)) = false →
       (moveFile fs sp dd sig).1 = .error .abortError ∧
       fileExistsFM (moveFile fs sp dd sig).2 (joinPaths dd (getFileName sp)) = false ∧
       jsMapGet (moveFile fs sp dd sig).2.files sp = jsMapGet fs.files sp) ∧
    ((sig = none ∨ ∃ s, sig = some s ∧ s.abortedAtStart = false ∧ s.outcome = .success) →
       fileExistsFM fs sp = true → dirExistsFM fs dd = true →
       fileExistsFM fs (joinPaths dd (getFileName sp)) = false →
       (moveFile fs sp dd sig).1 = .ok (joinPaths dd (getFileName sp)) ∧
       fileExistsFM (moveFile fs sp dd sig).2 sp = false ∧
       jsMapGet (moveFile fs sp dd sig).2.files (joinPaths dd (getFileName sp)) =
         jsMapGet fs.files sp) := by
  refine ⟨?_, ?_, ?_, ?_⟩
  · intro e fs1 hc
    simp [moveFile, hc]
  · intro hab
    simp [moveFile, copyFile, hab]
  · intro s hs habs k hout hsrc hdir hdest
    subst hs
    have hne : sp ≠ joinPaths dd (getFileName sp) := by
      intro heq
      rw [← heq] at hdest
      rw [hsrc] at hdest
      cases hdest
    have hcopy : copyFile fs sp dd (some s) =
        (.error .abortError,
         unlinkF (writeF fs (joinPaths dd (getFileName sp))
             (.truncated ((jsMapGet fs.files sp).getD (.raw "")) k))
           (joinPaths dd (getFileName sp))) := by
      simp only [copyFile, signalAborted, habs, Bool.false_eq_true, if_false, hsrc,
        hdir, hdest, hout, not_true, Bool.not_true]
    simp only [moveFile, hcopy]
    refine ⟨trivial, ?_, ?_⟩
    · simp [fileExistsFM, unlinkF, jsMapGet_erase_self]
    · simp only [unlinkF, writeF]
      rw [jsMapGet_erase_ne _ _ _ hne, jsMapGet_set_ne _ _ _ _ hne]
  · intro hsig hsrc hdir hdest
    have hne : sp ≠ joinPaths dd (getFileName sp) := by
      intro heq
      rw [← heq] at hdest
      rw [hsrc] at hdest
      cases hdest
    obtain ⟨x, hx⟩ := Option.isSome_iff_exists.mp hsrc
    have hcopy : copyFile fs sp dd sig =
        (.ok (joinPaths dd (getFileName sp)),
         writeF fs (joinPaths dd (getFileName sp))
           ((jsMapGet fs.files sp).getD (.raw ""))) := by
      rcases hsig with h0 | ⟨s, hs, habs, hsucc⟩
      · subst h0
        simp only [copyFile, signalAborted, Bool.false_eq_true, if_false, hsrc,
          hdir, hdest, not_true, Bool.not_true]
      · subst hs
        simp only [copyFile, signalAborted, habs, Bool.false_eq_true, if_false, hsrc,
          hdir, hdest, hsucc, not_true, Bool.not_true]
    have hdel : fileExistsFM (writeF fs (joinPaths dd (getFileName sp))
        ((jsMapGet fs.files sp).getD (.raw ""))) sp = true := by
      simp only [fileExistsFM, writeF]
      rw [jsMapGet_set_ne _ _ _ _ hne]
      exact hsrc
    simp only [moveFile, hcopy, deleteFile, hdel, Bool.true_eq_false, not_true,
      Bool.not_true, if_false]
    refine ⟨?_, ?_, ?_⟩
    · simp
    · simp [fileExistsFM, unlinkF, jsMapGet_erase_self]
    · simp only [unlinkF, writeF]
      rw [jsMapGet_erase_ne _ _ _ (Ne.symm hne), jsMapGet_set_self, hx]
      simp [hx]



theorem moveFile_copy_then_delete_witness :
    (moveFile fsSample "/home/src.txt" "/home/dest" (some ⟨false, .abortedMid 1⟩)).1 =
      .error .abortError ∧
    jsMapGet (moveFile fsSample "/home/src.txt" "/home/dest"
        (some ⟨false, .abortedMid 1⟩)).2.files "/home/src.txt" = some (.raw "abc") ∧
    fileExistsFM (moveFile fsSample "/home/src.txt" "/home/dest"
        (some ⟨false, .success⟩)).2 "/home/src.txt" = false := by
  have h3 := (moveFile_copy_then_delete fsSample "/home/src.txt" "/home/dest"
      (some ⟨false, .abortedMid 1⟩)).2.2.1 ⟨false, .abortedMid 1⟩ rfl rfl 1 rfl
      (by decide) (by decide) (by decide)
  have h4 := (moveFile_copy_then_delete fsSample "/home/src.txt" "/home/dest"
      (some ⟨false, .success⟩)).2.2.2 (Or.inr ⟨⟨false, .success⟩, rfl, rfl, rfl⟩)
      (by decide) (by decide) (by decide)
  exact ⟨h3.1, h3.2.2.trans (by decide), h4.2.1⟩

end FmCli
